import Mathlib

/-!
Shallow embedding of the HAWKLING IAM-role tool core.

Time instants are modelled as integers, measured in days from an arbitrary
epoch; `now` is passed explicitly everywhere the Go code reads the current
clock, so every function is deterministic given a fixed `now`.  The Go
`time.Time.Before` comparison is the strict order `<` on instants, and
`time.Now().AddDate(0, 0, -days)` is `now - days` in these units.
-/

namespace Hawkling

/-- A point in time, in days since an arbitrary epoch. -/
abbrev Time := Int

/-- `Role` from `pkg/aws/iam.go`: one IAM role.  `LastUsed` is the optional
last-activity timestamp (`nil` pointer in Go = `none` here). -/
structure Role where
  Name : String
  Arn : String
  Description : String
  CreateDate : Time
  LastUsed : Option Time
deriving DecidableEq, Repr

/-- Replace a role's `LastUsed` field, keeping all other fields. -/
def Role.withLastUsed (r : Role) (v : Option Time) : Role :=
  ⟨r.Name, r.Arn, r.Description, r.CreateDate, v⟩

/-- `Role.IsUnused` from `pkg/aws/iam.go`: a role with no recorded use is
always unused; otherwise the role is unused when its last use is strictly
before `now - days` (Go: `r.LastUsed.Before(time.Now().AddDate(0,0,-days))`). -/
def Role.IsUnused (r : Role) (days : Int) (now : Time) : Bool :=
  match r.LastUsed with
  | none => true
  | some t => decide (t < now - days)

/-- `FilterOptions` from `pkg/aws/filter.go`. -/
structure FilterOptions where
  Days : Int
  OnlyUsed : Bool
  OnlyUnused : Bool
deriving DecidableEq, Repr

/-- The first exclusion check of the `FilterRoles` loop
(`options.OnlyUnused && role.LastUsed != nil`). -/
def excludedByUnusedCheck (options : FilterOptions) (role : Role) : Bool :=
  options.OnlyUnused && role.LastUsed.isSome

/-- The second exclusion check of the `FilterRoles` loop
(`options.OnlyUsed && role.LastUsed == nil`). -/
def excludedByUsedCheck (options : FilterOptions) (role : Role) : Bool :=
  options.OnlyUsed && role.LastUsed.isNone

/-- The third exclusion check of the `FilterRoles` loop
(`options.Days > 0 && !options.OnlyUnused && !role.IsUnused(options.Days)`). -/
def excludedByDaysCheck (options : FilterOptions) (now : Time) (role : Role) : Bool :=
  decide (0 < options.Days) && !options.OnlyUnused && !(role.IsUnused options.Days now)

/-- The per-role loop body of `FilterRoles` in `pkg/aws/filter.go`: each
`continue` drops the role, a role surviving all three checks is appended. -/
def filterRolesLoop (options : FilterOptions) (now : Time) : List Role → List Role
  | [] => []
  | role :: rest =>
    if options.OnlyUnused && role.LastUsed.isSome then
      filterRolesLoop options now rest
    else if options.OnlyUsed && role.LastUsed.isNone then
      filterRolesLoop options now rest
    else if decide (0 < options.Days) && !options.OnlyUnused
        && !(role.IsUnused options.Days now) then
      filterRolesLoop options now rest
    else
      role :: filterRolesLoop options now rest

/-- `FilterRoles` from `pkg/aws/filter.go`: conflicting `OnlyUsed`/`OnlyUnused`
flags yield the empty list at once, otherwise the per-role loop runs. -/
def FilterRoles (roles : List Role) (options : FilterOptions) (now : Time) : List Role :=
  if options.OnlyUsed && options.OnlyUnused then []
  else filterRolesLoop options now roles

/-- `ListOptions` from `cmd/hawkling/commands/list.go`. -/
structure ListOptions where
  Days : Int
  Output : String
  ShowAll : Bool
  OnlyUsed : Bool
  OnlyUnused : Bool

/-- The inline per-role filter loop inside `ListCommand.Execute`
(`cmd/hawkling/commands/list.go`).  The days check only fires when
`role.LastUsed != nil`; the dereference of the non-nil pointer is `getD 0`
under that guard. -/
def listFilterLoop (options : ListOptions) (now : Time) : List Role → List Role
  | [] => []
  | role :: rest =>
    if options.OnlyUsed && role.LastUsed.isNone then
      listFilterLoop options now rest
    else if options.OnlyUnused && role.LastUsed.isSome then
      listFilterLoop options now rest
    else if decide (0 < options.Days) && role.LastUsed.isSome then
      if !(decide (role.LastUsed.getD 0 < now - options.Days)) then
        listFilterLoop options now rest
      else
        role :: listFilterLoop options now rest
    else
      role :: listFilterLoop options now rest

/-- The filtering stage of `ListCommand.Execute` in
`cmd/hawkling/commands/list.go`: on conflicting flags the command formats the
nil slice (an empty sequence), otherwise the inline loop filters. -/
def listExecuteFilter (roles : List Role) (options : ListOptions) (now : Time) : List Role :=
  if options.OnlyUsed && options.OnlyUnused then []
  else listFilterLoop options now roles

/-! ### Enrichment pipeline (`AWSClient.ListRoles` in `pkg/aws/awsclient.go`)

Workers fetch each role's last-used timestamp by name and send a
`roleResult` (positional index, fetched value, error flag) to the single
collector goroutine, which writes each result into the slot of the result's
index.  The concurrency is modelled by an explicit `arrival` order: the list
of indices in the order their results reach the collector.  The Go channels
guarantee `arrival` is some permutation of the job indices. -/

/-- `roleResult` from `AWSClient.ListRoles`: a worker's outcome for one role,
tagged with the role's positional index.  `err = true` models a non-nil
error from `GetRoleLastUsed`. -/
structure RoleResult where
  index : Nat
  lastUsed : Option Time
  err : Bool
deriving DecidableEq, Repr

/-- Positional write of a `LastUsed` value into a role list; out-of-range
indices leave the list unchanged. -/
def setLastUsed : List Role → Nat → Option Time → List Role
  | [], _, _ => []
  | r :: rest, 0, v => r.withLastUsed v :: rest
  | r :: rest, n + 1, v => r :: setLastUsed rest n v

/-- The collector's handling of one `roleResult` in `AWSClient.ListRoles`:
on a per-item error the slot's `LastUsed` is set to `nil` (and a warning is
logged, which has no effect on the data), otherwise the fetched value is
stored. -/
def applyResult (roles : List Role) (res : RoleResult) : List Role :=
  if res.err then setLastUsed roles res.index none
  else setLastUsed roles res.index res.lastUsed

/-- The collector loop of `AWSClient.ListRoles`: results are consumed in
arrival order and merged into the positional output sequence. -/
def collectResults (roles : List Role) (results : List RoleResult) : List Role :=
  results.foldl applyResult roles

/-- Name of the role at position `i` of the base listing (workers read
`roles[i].Name`; jobs are always in range, so the default is never hit). -/
def roleNameAt (roles : List Role) (i : Nat) : String :=
  ((roles[i]?).map Role.Name).getD ""

/-- A worker's processing of job `i` in `AWSClient.ListRoles`: call
`GetRoleLastUsed` with the role's name and wrap the outcome in a
`roleResult` carrying the job's index. -/
def fetchResult (fetch : String → Except Unit (Option Time)) (roles : List Role)
    (i : Nat) : RoleResult :=
  match fetch (roleNameAt roles i) with
  | Except.ok v => ⟨i, v, false⟩
  | Except.error _ => ⟨i, none, true⟩

/-- The `LastUsed` value the collector ends up storing for a role with the
given name: the fetched value on success, `none` on a per-item failure. -/
def fetchOutcome (fetch : String → Except Unit (Option Time)) (name : String) : Option Time :=
  match fetch name with
  | Except.ok v => v
  | Except.error _ => none

/-- Order-independent description of the enrichment result: every role keeps
its position and fields and gets the `LastUsed` value its own fetch produced. -/
def enrichDirect (roles : List Role) (fetch : String → Except Unit (Option Time)) : List Role :=
  roles.map (fun r => r.withLastUsed (fetchOutcome fetch r.Name))

/-- The enrichment phase of `AWSClient.ListRoles`, parametrised by the order
in which worker results arrive at the collector.  After the collector has
consumed every result the function returns `roles, nil`: per-item fetch
failures never produce a pipeline-level error. -/
def ListRolesEnrich (roles : List Role) (fetch : String → Except Unit (Option Time))
    (arrival : List Nat) : Except Unit (List Role) :=
  Except.ok (collectResults roles (arrival.map (fetchResult fetch roles)))

/-! ### Deletion workflow (`AWSClient.DeleteRole`, `PruneCommand.Execute`) -/

/-- The three ordered sub-steps of `AWSClient.DeleteRole`. -/
inductive DeleteStep where
  | detachPolicies : DeleteStep
  | deleteInline : DeleteStep
  | deleteRoleItself : DeleteStep
deriving DecidableEq, Repr

/-- `AWSClient.DeleteRole` from `pkg/aws/awsclient.go`, with the outcome of
each underlying AWS call passed in and the list of steps actually attempted
returned alongside the result: detach managed policies, then delete inline
policies, then delete the role; each step's error is returned at once (the
final API error is wrapped with the role name, as `fmt.Errorf` does). -/
def DeleteRoleSeq (roleName : String) (detach delInline apiDelete : Except String Unit) :
    Except String Unit × List DeleteStep :=
  match detach with
  | Except.error e => (Except.error e, [DeleteStep.detachPolicies])
  | Except.ok _ =>
    match delInline with
    | Except.error e => (Except.error e, [DeleteStep.detachPolicies, DeleteStep.deleteInline])
    | Except.ok _ =>
      match apiDelete with
      | Except.error e =>
        (Except.error ("failed to delete role " ++ roleName ++ ": " ++ e),
          [DeleteStep.detachPolicies, DeleteStep.deleteInline, DeleteStep.deleteRoleItself])
      | Except.ok _ =>
        (Except.ok (),
          [DeleteStep.detachPolicies, DeleteStep.deleteInline, DeleteStep.deleteRoleItself])

/-- The deletion loop of `PruneCommand.Execute` in
`cmd/hawkling/commands/prune.go`: every filtered role is attempted with
`client.DeleteRole`; a failure appends the role's name to `failedRoles` and
the loop continues, a success prints the role as deleted.  Returns the names
attempted (the calls made, in order), the names reported deleted, and the
collected `failedRoles`. -/
def pruneDeleteLoop (del : String → Except Unit Unit) :
    List Role → List String × List String × List String
  | [] => ([], [], [])
  | role :: rest =>
    let out := pruneDeleteLoop del rest
    match del role.Name with
    | Except.error _ => (role.Name :: out.1, out.2.1, role.Name :: out.2.2)
    | Except.ok _ => (role.Name :: out.1, role.Name :: out.2.1, out.2.2)

/-- The tail of `PruneCommand.Execute` after confirmation: run the deletion
loop, then return an error exactly when `failedRoles` is non-empty.  The
boolean is the overall failure signal (`errors.Errorf` on a non-empty
failure list). -/
def pruneExecuteDeletion (del : String → Except Unit Unit) (roles : List Role) :
    List String × List String × List String × Bool :=
  let out := pruneDeleteLoop del roles
  (out.1, out.2.1, out.2.2, !out.2.2.isEmpty)

/-- The candidate-selection stage of `PruneCommand.Execute`: the CLI wires
only `--days` for `prune` (`AddPruneFlags` in `commands/common.go`), leaving
`OnlyUsed` and `OnlyUnused` false, and the command passes those options to
`aws.FilterRoles`. -/
def pruneCandidates (roles : List Role) (days : Int) (now : Time) : List Role :=
  FilterRoles roles ⟨days, false, false⟩ now

/-! ### Helper lemmas: the filter engine as a `List.filter` -/

/-- The survivor predicate of the `FilterRoles` loop. -/
def keepRole (options : FilterOptions) (now : Time) (role : Role) : Bool :=
  !excludedByUnusedCheck options role && !excludedByUsedCheck options role
    && !excludedByDaysCheck options now role

theorem filterRolesLoop_eq_filter (options : FilterOptions) (now : Time) (roles : List Role) :
    filterRolesLoop options now roles = roles.filter (keepRole options now) := by
  obtain ⟨d, u, uu⟩ := options
  induction roles with
  | nil => rfl
  | cons role rest ih =>
    obtain ⟨nm, arn, desc, cd, lu⟩ := role
    simp only [filterRolesLoop, List.filter_cons, keepRole, excludedByUnusedCheck,
      excludedByUsedCheck, excludedByDaysCheck, Role.IsUnused, ih]
    cases u <;> cases uu <;> cases lu <;>
      by_cases hd : (0 : Int) < d <;>
        simp_all <;> split_ifs <;> first
          | rfl
          | (exfalso ; linarith)

theorem FilterRoles_eq_filter (roles : List Role) (options : FilterOptions) (now : Time) :
    FilterRoles roles options now =
      if options.OnlyUsed && options.OnlyUnused then []
      else roles.filter (keepRole options now) := by
  unfold FilterRoles
  rw [filterRolesLoop_eq_filter]

/-- The survivor predicate of the inline loop in `ListCommand.Execute`. -/
def keepListRole (options : ListOptions) (now : Time) (role : Role) : Bool :=
  !(options.OnlyUsed && role.LastUsed.isNone)
    && !(options.OnlyUnused && role.LastUsed.isSome)
    && !(decide (0 < options.Days) && role.LastUsed.isSome
      && !(decide (role.LastUsed.getD 0 < now - options.Days)))

theorem listFilterLoop_eq_filter (options : ListOptions) (now : Time) (roles : List Role) :
    listFilterLoop options now roles = roles.filter (keepListRole options now) := by
  obtain ⟨d, o, s, u, uu⟩ := options
  induction roles with
  | nil => rfl
  | cons role rest ih =>
    obtain ⟨nm, arn, desc, cd, lu⟩ := role
    simp only [listFilterLoop, List.filter_cons, keepListRole, ih]
    cases u <;> cases uu <;> cases lu <;>
      by_cases hd : (0 : Int) < d <;>
        simp_all <;> split_ifs <;> first
          | rfl
          | (exfalso ; linarith)

theorem keepListRole_eq_keepRole (days : Int) (output : String) (showAll u uu : Bool)
    (now : Time) (role : Role) :
    keepListRole ⟨days, output, showAll, u, uu⟩ now role = keepRole ⟨days, u, uu⟩ now role := by
  obtain ⟨nm, arn, desc, cd, lu⟩ := role
  simp only [keepListRole, keepRole, excludedByUnusedCheck, excludedByUsedCheck,
    excludedByDaysCheck, Role.IsUnused]
  cases u <;> cases uu <;> cases lu <;>
    by_cases hd : (0 : Int) < days <;>
      simp_all

/-! ### Concrete roles for the spec's worked example (now = 0) -/

/-- The example role last used 5 days ago. -/
def activeRoleEx : Role := ⟨"Active", "arnA", "", -400, some (-5)⟩

/-- The example role last used 100 days ago. -/
def inactiveRoleEx : Role := ⟨"Inactive", "arnI", "", -700, some (-100)⟩

/-- The example role that was never used. -/
def neverUsedRoleEx : Role := ⟨"NeverUsed", "arnN", "", -180, none⟩

/-! ### Claims about the usage predicate and the filter engine -/

/-- C2: `IsUnused` returns true iff the role's `LastUsed` is absent or
strictly before `now - days`; an absent `LastUsed` is unused for every
`days` (including `days = 0` and, here, even negative `days`), and a role
last used exactly at the threshold instant `now - days` is not unused.  The
function is total, so it never fails. -/
theorem claim_C2 (r : Role) (days : Int) (now : Time) :
    (r.IsUnused days now = true ↔
      r.LastUsed = none ∨ ∃ t, r.LastUsed = some t ∧ t < now - days)
    ∧ (r.LastUsed = none → r.IsUnused days now = true)
    ∧ (r.LastUsed = some (now - days) → r.IsUnused days now = false) := by
  rcases hr : r.LastUsed with _ | t <;>
    simp [Role.IsUnused, hr]
  intro h
  subst h
  linarith

/-- C2 witness: a never-used role is unused at `days = 0`. -/
theorem claim_C2_witness : Role.IsUnused ⟨"NeverUsed", "", "", 0, none⟩ 0 0 = true :=
  (claim_C2 ⟨"NeverUsed", "", "", 0, none⟩ 0 0).2.1 rfl

/-- C1 counterexample: with `days = 90` and `OnlyUnused` set, `FilterRoles`
drops the role last used 100 days ago even though it satisfies
`IsUnused 90` and has a present `LastUsed`; the filtered result is
`[NeverUsed]`, not `[Inactive, NeverUsed]` as the claim states. -/
theorem claim_C1_counterexample :
    inactiveRoleEx.IsUnused 90 0 = true
    ∧ inactiveRoleEx.LastUsed.isSome = true
    ∧ FilterRoles [activeRoleEx, inactiveRoleEx, neverUsedRoleEx] ⟨90, false, true⟩ 0
        = [neverUsedRoleEx]
    ∧ FilterRoles [activeRoleEx, inactiveRoleEx, neverUsedRoleEx] ⟨90, false, true⟩ 0
        ≠ [inactiveRoleEx, neverUsedRoleEx] := by
  refine ⟨by decide, by decide, by decide, by decide⟩

/-- C1 amended: with `OnlyUnused` set and `OnlyUsed` not set, `FilterRoles`
excludes a role exactly when its `LastUsed` is present, regardless of the
day threshold: the unused-only view is the never-used roles in input order,
and on the worked example it is `[NeverUsed]`. -/
theorem claim_C1_amended :
    (∀ (roles : List Role) (days : Int) (now : Time),
      FilterRoles roles ⟨days, false, true⟩ now
        = roles.filter (fun r => r.LastUsed.isNone))
    ∧ FilterRoles [activeRoleEx, inactiveRoleEx, neverUsedRoleEx] ⟨90, false, true⟩ 0
        = [neverUsedRoleEx] := by
  constructor
  · intro roles days now
    rw [FilterRoles_eq_filter]
    simp only [Bool.false_and, Bool.and_false, if_neg]
    refine (if_neg (by simp)).trans (List.filter_congr ?_)
    intro role _
    simp only [keepRole, excludedByUnusedCheck, excludedByUsedCheck, excludedByDaysCheck]
    cases role.LastUsed <;> simp
  · decide

/-- C7: conflicting `OnlyUsed` and `OnlyUnused` flags make `FilterRoles`
return the empty list immediately, for every input and every day value; the
result is an ordinary value, not an error (the function is total). -/
theorem claim_C7 (roles : List Role) (days : Int) (now : Time) :
    FilterRoles roles ⟨days, true, true⟩ now = [] := rfl

/-- C8: in `FilterRoles`, the age check excludes a role exactly when
`Days > 0`, `OnlyUnused` is not set, and the role is not `IsUnused`; with
`Days = 0` the age check never excludes, and with `OnlyUnused` set it is
never applied.  A role is in the output iff it is in the input and none of
the three exclusion checks fires (flags assumed non-conflicting). -/
theorem claim_C8 (options : FilterOptions) (now : Time) (roles : List Role) (role : Role)
    (hflags : ¬(options.OnlyUsed = true ∧ options.OnlyUnused = true)) :
    (excludedByDaysCheck options now role = true ↔
      0 < options.Days ∧ options.OnlyUnused = false
        ∧ role.IsUnused options.Days now = false)
    ∧ (options.Days = 0 → excludedByDaysCheck options now role = false)
    ∧ (options.OnlyUnused = true → excludedByDaysCheck options now role = false)
    ∧ (role ∈ FilterRoles roles options now ↔
        role ∈ roles ∧ excludedByUnusedCheck options role = false
          ∧ excludedByUsedCheck options role = false
          ∧ excludedByDaysCheck options now role = false) := by
  refine ⟨?_, ?_, ?_, ?_⟩
  · simp [excludedByDaysCheck, and_assoc]
  · intro h0
    simp [excludedByDaysCheck, h0]
  · intro huu
    simp [excludedByDaysCheck, huu]
  · rw [FilterRoles_eq_filter, if_neg (by simpa using hflags)]
    rw [List.mem_filter]
    simp [keepRole, and_assoc]

/-- C8 witness: with `Days = 0` the age check does not exclude a stale role. -/
theorem claim_C8_witness :
    excludedByDaysCheck ⟨0, false, false⟩ 0 ⟨"R", "a", "", 0, some (-100)⟩ = false :=
  (claim_C8 ⟨0, false, false⟩ 0 [] ⟨"R", "a", "", 0, some (-100)⟩ (by decide)).2.1 rfl

/-- C6: for `days > 0`, the prune candidates are exactly the listed roles
satisfying `IsUnused days` (never used, or last used strictly more than
`days` ago), in listing order; in particular every selected role satisfies
`IsUnused`, so no role used within the threshold is selected. -/
theorem claim_C6 (roles : List Role) (days : Int) (now : Time) (hdays : 0 < days) :
    pruneCandidates roles days now = roles.filter (fun r => r.IsUnused days now)
    ∧ ∀ r ∈ pruneCandidates roles days now, r.IsUnused days now = true := by
  have hmain : pruneCandidates roles days now
      = roles.filter (fun r => r.IsUnused days now) := by
    unfold pruneCandidates
    rw [FilterRoles_eq_filter, if_neg (by simp)]
    refine List.filter_congr ?_
    intro role _
    simp [keepRole, excludedByUnusedCheck, excludedByUsedCheck, excludedByDaysCheck, hdays]
  refine ⟨hmain, ?_⟩
  intro r hr
  rw [hmain, List.mem_filter] at hr
  exact hr.2

/-- C6 witness: prune candidates at `days = 90` on a two-role listing. -/
theorem claim_C6_witness :
    pruneCandidates [⟨"N", "", "", 0, none⟩, ⟨"A", "", "", 0, some (-5)⟩] 90 0
      = List.filter (fun r => r.IsUnused 90 0)
          [⟨"N", "", "", 0, none⟩, ⟨"A", "", "", 0, some (-5)⟩] :=
  (claim_C6 [⟨"N", "", "", 0, none⟩, ⟨"A", "", "", 0, some (-5)⟩] 90 0 (by decide)).1

/-- C10: the inline filter of `ListCommand.Execute` is extensionally equal
to `aws.FilterRoles` for identical `days`/`onlyUsed`/`onlyUnused` options
and the same fixed current time, on every input sequence. -/
theorem claim_C10 (roles : List Role) (days : Int) (output : String) (showAll u uu : Bool)
    (now : Time) :
    listExecuteFilter roles ⟨days, output, showAll, u, uu⟩ now
      = FilterRoles roles ⟨days, u, uu⟩ now := by
  unfold listExecuteFilter FilterRoles
  by_cases h : (u && uu) = true
  · simp [h]
  · rw [if_neg h, if_neg h, listFilterLoop_eq_filter, filterRolesLoop_eq_filter]
    refine List.filter_congr ?_
    intro role _
    exact keepListRole_eq_keepRole days output showAll u uu now role

/-! ### Helper lemmas: the collector merge -/

/-- The `LastUsed` value the collector stores for one result. -/
def resValue (res : RoleResult) : Option Time :=
  if res.err then none else res.lastUsed

theorem applyResult_eq_setLastUsed (roles : List Role) (res : RoleResult) :
    applyResult roles res = setLastUsed roles res.index (resValue res) := by
  cases hres : res.err <;> simp [applyResult, resValue, hres]

theorem option_map_congr {f g : Role → Role} (o : Option Role) (h : ∀ r, f r = g r) :
    o.map f = o.map g := by
  cases o <;> simp [h]

theorem setLastUsed_getElem? (l : List Role) (i j : Nat) (v : Option Time) :
    (setLastUsed l i v)[j]?
      = (l[j]?).map (fun r => if i = j then r.withLastUsed v else r) := by
  induction l generalizing i j with
  | nil => simp [setLastUsed]
  | cons r rest ih =>
    cases i <;> cases j <;> simp [setLastUsed, ih]

theorem setLastUsed_length (l : List Role) (i : Nat) (v : Option Time) :
    (setLastUsed l i v).length = l.length := by
  induction l generalizing i with
  | nil => rfl
  | cons r rest ih => cases i <;> simp [setLastUsed, ih]

theorem collectResults_length (init : List Role) (results : List RoleResult) :
    (collectResults init results).length = init.length := by
  induction results generalizing init with
  | nil => rfl
  | cons res rest ih =>
    simp only [collectResults, List.foldl_cons] at *
    rw [ih, applyResult_eq_setLastUsed, setLastUsed_length]

/-- After the collector has consumed all results, a slot holds its original
role with `LastUsed` overwritten by the common value of the results routed
to it, and slots no result was routed to are untouched. -/
theorem collectResults_getElem? (results : List RoleResult) (init : List Role) (j : Nat)
    (v : Nat → Option Time) (hv : ∀ res ∈ results, resValue res = v res.index) :
    (collectResults init results)[j]?
      = if j ∈ results.map RoleResult.index
        then (init[j]?).map (fun r => r.withLastUsed (v j))
        else init[j]? := by
  induction results generalizing init with
  | nil => simp [collectResults]
  | cons res rest ih =>
    have hres : resValue res = v res.index := hv res (List.mem_cons_self res rest)
    have hrest : ∀ r ∈ rest, resValue r = v r.index :=
      fun r hr => hv r (List.mem_cons_of_mem res hr)
    simp only [collectResults, List.foldl_cons] at *
    rw [ih (applyResult init res) hrest]
    by_cases hmem : j ∈ rest.map RoleResult.index
    · rw [if_pos hmem, if_pos (by simp [hmem])]
      rw [applyResult_eq_setLastUsed, setLastUsed_getElem?, Option.map_map]
      refine option_map_congr _ fun r => ?_
      by_cases hij : res.index = j <;> simp [hij, Role.withLastUsed]
    · by_cases hj : res.index = j
      · rw [if_neg hmem, if_pos (by simp [hj])]
        rw [applyResult_eq_setLastUsed, setLastUsed_getElem?, hres, hj]
        refine option_map_congr _ fun r => ?_
        simp
      · rw [if_neg hmem, if_neg (by simp [hmem, Ne.symm hj])]
        rw [applyResult_eq_setLastUsed, setLastUsed_getElem?]
        cases hr : init[j]? <;> simp [hj]

theorem fetchResult_index (fetch : String → Except Unit (Option Time)) (roles : List Role)
    (i : Nat) : (fetchResult fetch roles i).index = i := by
  unfold fetchResult
  cases fetch (roleNameAt roles i) <;> rfl

theorem fetchResult_resValue (fetch : String → Except Unit (Option Time)) (roles : List Role)
    (i : Nat) : resValue (fetchResult fetch roles i) = fetchOutcome fetch (roleNameAt roles i) := by
  unfold fetchResult fetchOutcome resValue
  cases fetch (roleNameAt roles i) <;> rfl

/-- Merging the worker results in any arrival order that is a permutation of
the job indices yields exactly the positional enrichment. -/
theorem collect_perm_eq_enrichDirect (roles : List Role)
    (fetch : String → Except Unit (Option Time)) (arrival : List Nat)
    (hperm : arrival.Perm (List.range roles.length)) :
    collectResults roles (arrival.map (fetchResult fetch roles)) = enrichDirect roles fetch := by
  have hindex : (arrival.map (fetchResult fetch roles)).map RoleResult.index = arrival := by
    rw [List.map_map]
    exact (List.map_congr_left fun i _ => fetchResult_index fetch roles i).trans
      (List.map_id arrival)
  apply List.ext_getElem?
  intro j
  rw [collectResults_getElem? (arrival.map (fetchResult fetch roles)) roles j
    (fun i => fetchOutcome fetch (roleNameAt roles i)) ?_]
  · rw [hindex]
    unfold enrichDirect
    rw [List.getElem?_map]
    by_cases hj : j < roles.length
    · rw [if_pos (hperm.mem_iff.2 (List.mem_range.2 hj))]
      cases hr : roles[j]? with
      | none => rfl
      | some r =>
        have hname : roleNameAt roles j = r.Name := by
          simp [roleNameAt, hr]
        simp [hname]
    · have hnone : roles[j]? = none := List.getElem?_eq_none (Nat.le_of_not_lt hj)
      have hnotmem : j ∉ arrival := fun hmem =>
        hj (List.mem_range.1 (hperm.mem_iff.1 hmem))
      rw [if_neg hnotmem, hnone]
      rfl
  · intro res hres
    rcases List.mem_map.1 hres with ⟨i, _, rfl⟩
    rw [fetchResult_resValue, fetchResult_index]

/-- C9: for every arrival order of the worker results that is a permutation
of the job indices, the collector produces exactly the positional enrichment
(independent of completion order), every output slot keeps the name of the
role originally at that position, and no two results target the same slot. -/
theorem claim_C9 (roles : List Role) (fetch : String → Except Unit (Option Time))
    (arrival : List Nat) (hperm : arrival.Perm (List.range roles.length)) :
    collectResults roles (arrival.map (fetchResult fetch roles)) = enrichDirect roles fetch
    ∧ (∀ j : Nat, ((collectResults roles (arrival.map (fetchResult fetch roles)))[j]?).map Role.Name
        = (roles[j]?).map Role.Name)
    ∧ ((arrival.map (fetchResult fetch roles)).map RoleResult.index).Nodup := by
  have hmain := collect_perm_eq_enrichDirect roles fetch arrival hperm
  have hindex : (arrival.map (fetchResult fetch roles)).map RoleResult.index = arrival := by
    rw [List.map_map]
    exact (List.map_congr_left fun i _ => fetchResult_index fetch roles i).trans
      (List.map_id arrival)
  refine ⟨hmain, ?_, ?_⟩
  · intro j
    rw [hmain]
    unfold enrichDirect
    rw [List.getElem?_map, Option.map_map]
    cases roles[j]? <;> rfl
  · rw [hindex]
    exact hperm.nodup_iff.2 (List.nodup_range roles.length)

/-- C9 witness: a two-role listing whose results arrive in reversed order. -/
theorem claim_C9_witness :
    collectResults [activeRoleEx, neverUsedRoleEx]
        ([1, 0].map (fetchResult (fun s => if s = "Active" then Except.ok (some (-5)) else Except.ok none)
          [activeRoleEx, neverUsedRoleEx]))
      = enrichDirect [activeRoleEx, neverUsedRoleEx]
          (fun s => if s = "Active" then Except.ok (some (-5)) else Except.ok none) :=
  (claim_C9 [activeRoleEx, neverUsedRoleEx]
    (fun s => if s = "Active" then Except.ok (some (-5)) else Except.ok none)
    [1, 0] (by decide)).1

/-- C3: if the fetch capability fails for exactly one role name and succeeds
for every other, the enrichment phase still returns `ok` (no pipeline-level
error), the output has the same length as the input, the failing role ends
with an absent `LastUsed`, and every successfully fetched role carries its
fetched timestamp. -/
theorem claim_C3 (roles : List Role) (fetch : String → Except Unit (Option Time))
    (arrival : List Nat) (bad : String)
    (hperm : arrival.Perm (List.range roles.length))
    (hbad : fetch bad = Except.error ())
    (hok : ∀ s, s ≠ bad → (fetch s).isOk = true) :
    ListRolesEnrich roles fetch arrival = Except.ok (enrichDirect roles fetch)
    ∧ (enrichDirect roles fetch).length = roles.length
    ∧ (∀ (j : Nat) (r : Role), roles[j]? = some r → r.Name = bad →
        (enrichDirect roles fetch)[j]? = some (r.withLastUsed none))
    ∧ (∀ (j : Nat) (r : Role) (v : Option Time), roles[j]? = some r →
        fetch r.Name = Except.ok v →
        (enrichDirect roles fetch)[j]? = some (r.withLastUsed v)) := by
  refine ⟨?_, ?_, ?_, ?_⟩
  · unfold ListRolesEnrich
    rw [collect_perm_eq_enrichDirect roles fetch arrival hperm]
  · unfold enrichDirect
    exact List.length_map roles _
  · intro j r hr hname
    unfold enrichDirect
    rw [List.getElem?_map, hr]
    simp [fetchOutcome, hname, hbad]
  · intro j r v hr hv
    unfold enrichDirect
    rw [List.getElem?_map, hr]
    simp [fetchOutcome, hv]

/-- C3 witness: two roles, the fetch failing exactly for name "B". -/
theorem claim_C3_witness :
    ListRolesEnrich [⟨"A", "", "", 0, none⟩, ⟨"B", "", "", 0, none⟩]
        (fun s => if s = "B" then Except.error () else Except.ok (some (-5))) [0, 1]
      = Except.ok (enrichDirect [⟨"A", "", "", 0, none⟩, ⟨"B", "", "", 0, none⟩]
          (fun s => if s = "B" then Except.error () else Except.ok (some (-5)))) :=
  (claim_C3 [⟨"A", "", "", 0, none⟩, ⟨"B", "", "", 0, none⟩]
    (fun s => if s = "B" then Except.error () else Except.ok (some (-5))) [0, 1] "B"
    (by decide) (by simp)
    (fun s hs => by simp only [] ; rw [if_neg hs] ; rfl)).1

/-! ### Claims about the deletion workflow -/

theorem pruneDeleteLoop_spec (del : String → Except Unit Unit) (roles : List Role) :
    pruneDeleteLoop del roles
      = (roles.map Role.Name,
         (roles.filter (fun r => (del r.Name).isOk)).map Role.Name,
         (roles.filter (fun r => !(del r.Name).isOk)).map Role.Name) := by
  induction roles with
  | nil => rfl
  | cons role rest ih =>
    cases hdel : del role.Name <;>
      simp [pruneDeleteLoop, ih, hdel, List.filter_cons, Except.isOk, Except.toBool]

/-- C4: bulk deletion attempts every selected role (the attempted names are
all the input names in order, regardless of failures), reports as deleted
exactly the roles whose deletion succeeded and as failed exactly those whose
deletion failed, and signals an overall failure iff the failure list is
non-empty — a signal that exists only after the whole loop has run.  On
`[A, B, C]` with `B` failing, the report is deleted `[A, C]`, failed `[B]`,
overall failure signalled. -/
theorem claim_C4 :
    (∀ (del : String → Except Unit Unit) (roles : List Role),
      (pruneExecuteDeletion del roles).1 = roles.map Role.Name
      ∧ (pruneExecuteDeletion del roles).2.1
          = (roles.filter (fun r => (del r.Name).isOk)).map Role.Name
      ∧ (pruneExecuteDeletion del roles).2.2.1
          = (roles.filter (fun r => !(del r.Name).isOk)).map Role.Name
      ∧ ((pruneExecuteDeletion del roles).2.2.2 = true ↔
          (pruneExecuteDeletion del roles).2.2.1 ≠ []))
    ∧ pruneExecuteDeletion (fun s => if s = "B" then Except.error () else Except.ok ())
        [⟨"A", "", "", 0, none⟩, ⟨"B", "", "", 0, none⟩, ⟨"C", "", "", 0, none⟩]
      = (["A", "B", "C"], ["A", "C"], ["B"], true) := by
  constructor
  · intro del roles
    have hloop := pruneDeleteLoop_spec del roles
    unfold pruneExecuteDeletion
    rw [hloop]
    refine ⟨rfl, rfl, rfl, ?_⟩
    simp
  · decide

/-- C5: `DeleteRole` performs detach-managed-policies, delete-inline-policies
and delete-role in that order; it succeeds (with all three steps attempted)
iff all three sub-operations succeed, and the first failing step's error is
returned at once with no later step attempted. -/
theorem claim_C5 (name : String) (d i r : Except String Unit) :
    (DeleteRoleSeq name d i r
        = (Except.ok (), [DeleteStep.detachPolicies, DeleteStep.deleteInline,
            DeleteStep.deleteRoleItself]) ↔
      d = Except.ok () ∧ i = Except.ok () ∧ r = Except.ok ())
    ∧ (∀ e, d = Except.error e →
        DeleteRoleSeq name d i r = (Except.error e, [DeleteStep.detachPolicies]))
    ∧ (∀ e, d = Except.ok () → i = Except.error e →
        DeleteRoleSeq name d i r
          = (Except.error e, [DeleteStep.detachPolicies, DeleteStep.deleteInline]))
    ∧ (∀ e, d = Except.ok () → i = Except.ok () → r = Except.error e →
        DeleteRoleSeq name d i r
          = (Except.error ("failed to delete role " ++ name ++ ": " ++ e),
             [DeleteStep.detachPolicies, DeleteStep.deleteInline,
              DeleteStep.deleteRoleItself])) := by
  rcases d with e1 | u1 <;> rcases i with e2 | u2 <;> rcases r with e3 | u3 <;>
    first
      | (cases u1 ; cases u2 ; cases u3 ; simp [DeleteRoleSeq])
      | (try cases u1) <;> (try cases u2) <;> (try cases u3) <;> simp [DeleteRoleSeq]

/-- C5 witness: a failing detach step aborts the deletion at once. -/
theorem claim_C5_witness :
    DeleteRoleSeq "R" (Except.error "boom") (Except.ok ()) (Except.ok ())
      = (Except.error "boom", [DeleteStep.detachPolicies]) :=
  (claim_C5 "R" (Except.error "boom") (Except.ok ()) (Except.ok ())).2.1 "boom" rfl

end Hawkling
